import Mathlib

/-!
# Typing Bomb — verification of the game engine against its specification

Shallow embedding of the game engine in `src/index.tsx`.  The React component
state (`mode`, `difficultyIndex`, `score`, `lives`, `gameOver`, `bombs`,
`step`, `bombsCleared`, together with the `bombIdRef` counter and the
dependency record of the level-up effect) is modelled as a `GameState`
record; every handler of the component (the `startGame` / `submitScore` /
`resetGame` functions, the keydown listener, the drop / spawn / floor-check
interval callbacks and the two state-driven effects) becomes one case of a
transition function `applyEvent`.  `Math.random` draws are supplied as
oracle parameters of the spawn event, constrained to the interval the code
draws from, so the random algorithm becomes a nondeterministic transition
system.  Positions are rationals; the float comparison
`Math.sqrt (dx*dx + dy*dy) < bombRadius * 2.5` is embedded in its squared
form `dx*dx + dy*dy < minDist * minDist`, which is equivalent for the real
square root since both sides are nonnegative.  `lives` is an integer and the
clamp `Math.max(0, lives - livesLost)` is kept literally.  The leaderboard
persistence code is modelled separately at the end, with the outcome of
`JSON.parse` on the stored string abstracted into success on an array,
success on a non-array JSON value, or a thrown exception.
-/

/-- The two play modes, the values of the `mode` state (`'en' | 'zh'`). -/
inductive Mode where
  | en : Mode
  | zh : Mode
deriving Repr, DecidableEq, BEq

/-- The values of the `step` state: `"select-mode"`, `"game"`, `"enter-name"`,
`"leaderboard"`.  `game` is the Playing phase; `enterName` and `leaderboard`
together form the Ended phase of the specification. -/
inductive Step where
  | selectMode : Step
  | game : Step
  | enterName : Step
  | leaderboard : Step
deriving Repr, DecidableEq, BEq

/-- Audio cues emitted by `playSound`, plus the level-completed alert. -/
inductive Signal where
  | hit : Signal
  | fail : Signal
  | gameover : Signal
  | levelAlert : Signal
deriving Repr, DecidableEq, BEq

/-- One falling bomb: `{ id, char, x, y }` as in the `bombs` state array. -/
structure Bomb where
  id : Nat
  char : Char
  x : ℚ
  y : ℚ
deriving Repr, DecidableEq, BEq

/-- One entry of the `difficulties` table. -/
structure DifficultyTier where
  name : String
  speed : Nat
  count : Nat
deriving Repr, DecidableEq

/-- The `difficulties` constant. -/
def difficulties : List DifficultyTier :=
  [⟨"Very Easy", 2200, 1⟩, ⟨"Easy", 1800, 1⟩, ⟨"Normal", 1500, 2⟩,
   ⟨"Hard", 1200, 2⟩, ⟨"Very Hard", 1000, 3⟩]

/-- Indexing `difficulties[difficultyIndex]` (in reachable states the index
is always in range, see the invariants below). -/
def tierAt (i : Nat) : DifficultyTier :=
  difficulties.getD i ⟨"", 0, 0⟩

/-- The `bombsToNextLevel` constant. -/
def bombsToNextLevel : Nat := 50

/-- The `CHAR_SETS` constant: per-mode catalog of playable glyphs. -/
def CHAR_SETS : Mode → List Char
  | Mode.en => "ABCDEFGHIJKLMNOPQRSTUVWXYZ1234567890".toList
  | Mode.zh => "ㄅㄆㄇㄈㄉㄊㄋㄌㄍㄎㄏㄐㄑㄒㄓㄔㄕㄖㄗㄘㄙㄧㄨㄩㄚㄛㄜㄝㄞㄟㄠㄡㄢㄣㄤㄥㄦ".toList

/-- The `ZHUYIN_KEY_MAP` object literal, as the association list of its
entries in source order.  A JavaScript object has at most one value per key,
which corresponds to the key list of this association list having no
duplicates (proved below). -/
def ZHUYIN_KEY_MAP : List (Char × Char) :=
  [('ㄅ', '1'), ('ㄆ', 'Q'), ('ㄇ', 'A'), ('ㄈ', 'Z'), ('ㄉ', '2'),
   ('ㄊ', 'W'), ('ㄋ', 'S'), ('ㄌ', 'X'), ('ㄍ', 'E'), ('ㄎ', 'D'),
   ('ㄏ', 'C'), ('ㄐ', 'R'), ('ㄑ', 'F'), ('ㄒ', 'V'), ('ㄓ', '5'),
   ('ㄔ', 'T'), ('ㄕ', 'G'), ('ㄖ', 'B'), ('ㄗ', 'Y'), ('ㄘ', 'H'),
   ('ㄙ', 'N'), ('ㄧ', 'U'), ('ㄨ', 'J'), ('ㄩ', 'M'), ('ㄚ', '8'),
   ('ㄛ', 'I'), ('ㄜ', 'K'), ('ㄝ', ','), ('ㄞ', '9'), ('ㄟ', 'O'),
   ('ㄠ', 'L'), ('ㄡ', '.'), ('ㄢ', '0'), ('ㄣ', 'P'), ('ㄤ', ';'),
   ('ㄥ', '/'), ('ㄦ', '-'),
   ('ˇ', '3'), ('ˋ', '4'), ('ˊ', '6'), ('˙', '7')]

/-- Matching logic of the keydown handler for one bomb, after the pressed
key has been uppercased into `inputKey`: in `zh` mode the bomb matches when
`ZHUYIN_KEY_MAP[charOnBomb]` exists and `inputKey === expectedKey.toUpperCase()`;
in `en` mode when `charOnBomb.toUpperCase() === inputKey`. -/
def matchesKey (m : Mode) (inputKey : Char) (charOnBomb : Char) : Bool :=
  match m with
  | Mode.zh =>
      match ZHUYIN_KEY_MAP.lookup charOnBomb with
      | some expectedKey => inputKey == expectedKey.toUpper
      | none => false
  | Mode.en => charOnBomb.toUpper == inputKey

/-- The `prev.filter` with the mutable `hitOccurred` flag in the keydown
handler: the first matching bomb is dropped and every later bomb (matching
or not) is kept; the boolean reports whether a hit occurred. -/
def resolveBombs (m : Mode) (inputKey : Char) : List Bomb → List Bomb × Bool
  | [] => ([], false)
  | b :: rest =>
      if matchesKey m inputKey b.char then (rest, true)
      else
        let r := resolveBombs m inputKey rest
        (b :: r.1, r.2)

/-- The `canvasWidth` local of `createBomb`. -/
def canvasWidth : ℚ := 400

/-- The `bombRadius` local of `createBomb`. -/
def bombRadius : ℚ := 20

/-- The minimum allowed distance `bombRadius * 2.5` between a spawn
candidate (at height 0) and any other bomb. -/
def minDist : ℚ := bombRadius * 2.5

/-- The `maxAttempts` local of `createBomb`. -/
def maxAttempts : Nat := 50

/-- The overlap test of one loop iteration: with `dx = newX - existingBomb.x`
and `dy = 0 - existingBomb.y`, the source compares
`Math.sqrt (dx*dx + dy*dy) < bombRadius * 2.5`; squaring both (nonnegative)
sides gives this equivalent test. -/
def overlapsB (newX : ℚ) (b : Bomb) : Bool :=
  decide ((newX - b.x) * (newX - b.x) + (0 - b.y) * (0 - b.y) < minDist * minDist)

/-- The candidate position computed from one `Math.random()` draw `r`:
`Math.random() * (canvasWidth - bombRadius * 2) + bombRadius`. -/
def drawX (r : ℚ) : ℚ := r * (canvasWidth - bombRadius * 2) + bombRadius

/-- The `do … while (overlapped && attempts < maxAttempts)` retry loop for
one bomb: `draws` supplies the successive `Math.random()` values and `fuel`
is the number of attempts still allowed (initially `maxAttempts`).  The
result is the accepted position, or `none` when the final attempt still
overlapped, in which case the bomb is dropped from the wave. -/
def placeLoop (allBombs : List Bomb) : List ℚ → Nat → Option ℚ
  | [], _ => none
  | r :: rs, fuel =>
      let newX := drawX r
      if allBombs.any (fun b => overlapsB newX b) then
        if fuel ≤ 1 then none else placeLoop allBombs rs (fuel - 1)
      else some newX

/-- The random choices consumed by one iteration of the outer
`for (let i = 0; i < currentDifficulty.count; i++)` loop: the successive
position draws and the index `Math.floor(Math.random() * length)` used to
pick the glyph. -/
structure BombOracle where
  draws : List ℚ
  charIdx : Nat
deriving Repr, DecidableEq

/-- The outer loop of `createBomb`: one `BombOracle` per requested bomb;
each accepted candidate is checked against `[...prev, ...newBombsBatch]`
and pushed with a fresh id at `y = 0`. Returns the final batch and the
updated `bombIdRef` counter. -/
def spawnWaveAux (chars : List Char) (prev : List Bomb) :
    List BombOracle → List Bomb → Nat → List Bomb × Nat
  | [], batch, nid => (batch, nid)
  | o :: os, batch, nid =>
      match placeLoop (prev ++ batch) o.draws maxAttempts with
      | none => spawnWaveAux chars prev os batch nid
      | some newX =>
          spawnWaveAux chars prev os
            (batch ++ [⟨nid, chars.getD o.charIdx 'A', newX, 0⟩]) (nid + 1)

/-- The body of `createBomb` after the `CHAR_SETS[mode]` lookup: if the
catalog is empty the field is returned unchanged (the silent branch
`if (!currentChars || currentChars.length === 0) return prev`), otherwise
the new batch is appended. -/
def createBombChars (currentChars : List Char) (prev : List Bomb) (nid : Nat)
    (os : List BombOracle) : List Bomb × Nat :=
  if currentChars.length = 0 then (prev, nid)
  else
    let r := spawnWaveAux currentChars prev os [] nid
    (prev ++ r.1, r.2)

/-- The component state of `App` (restricted to the fields the game engine
claims are about), together with `bombIdRef` (`nextId`) and the pair of
dependency values `[bombsCleared, difficultyIndex]` recorded at the last run
of the level-up effect (`levelRan`) — React re-runs that effect exactly when
the current pair differs from the recorded one. -/
structure GameState where
  mode : Option Mode
  difficultyIndex : Nat
  score : Nat
  lives : ℤ
  gameOver : Bool
  bombs : List Bomb
  step : Step
  bombsCleared : Nat
  nextId : Nat
  levelRan : Nat × Nat
deriving Repr, DecidableEq

/-- The events that can mutate the state: the three UI handlers, a keydown,
one tick of each of the three intervals (fall, spawn, floor check) and the
two state-driven effects.  The spawn event carries the random draws of its
`createBomb` call. -/
inductive Event where
  | startGame (m : Mode) (idx : Nat) : Event
  | keydown (k : Char) : Event
  | fall : Event
  | spawn (os : List BombOracle) : Event
  | floorCheck : Event
  | livesEffect : Event
  | levelEffect : Event
  | submitScore : Event
  | resetGame : Event
deriving Repr, DecidableEq

/-- One handler invocation: the next state and the audio / alert signals it
emits.  Each case is the translation of the corresponding handler in
`src/index.tsx`. -/
def applyEvent : Event → GameState → GameState × List Signal
  | Event.startGame m idx, s =>
      ({ s with mode := some m, difficultyIndex := idx, score := 0, lives := 10,
                bombs := [], bombsCleared := 0, gameOver := false, step := Step.game }, [])
  | Event.keydown k, s =>
      match s.mode with
      | none => (s, [])
      | some m =>
          if s.step ≠ Step.game ∨ s.gameOver = true then (s, [])
          else
            let inputKey := k.toUpper
            let r := resolveBombs m inputKey s.bombs
            if r.2 then
              ({ s with bombs := r.1, score := s.score + 1,
                        bombsCleared := s.bombsCleared + 1 }, [Signal.hit])
            else ({ s with bombs := r.1 }, [])
  | Event.fall, s =>
      ({ s with bombs := s.bombs.map (fun b => { b with y := b.y + 10 }) }, [])
  | Event.spawn os, s =>
      match s.mode with
      | none => (s, [])
      | some m =>
          let r := createBombChars (CHAR_SETS m) s.bombs s.nextId os
          ({ s with bombs := r.1, nextId := r.2 }, [])
  | Event.floorCheck, s =>
      if s.step ≠ Step.game ∨ s.gameOver = true then (s, [])
      else
        let stillActive := s.bombs.filter (fun b => !decide ((500 : ℚ) - 20 ≤ b.y))
        let livesLost := (s.bombs.filter (fun b => decide ((500 : ℚ) - 20 ≤ b.y))).length
        if livesLost > 0 then
          ({ s with bombs := stillActive,
                    lives := max 0 (s.lives - livesLost) }, [Signal.fail])
        else ({ s with bombs := stillActive }, [])
  | Event.livesEffect, s =>
      if s.lives ≤ 0 ∧ s.step = Step.game then
        ({ s with gameOver := true, step := Step.enterName }, [Signal.gameover])
      else (s, [])
  | Event.levelEffect, s =>
      let s1 := { s with levelRan := (s.bombsCleared, s.difficultyIndex) }
      if s.bombsCleared > 0 ∧ s.bombsCleared % bombsToNextLevel = 0 then
        if s.difficultyIndex < difficulties.length - 1 then
          ({ s1 with difficultyIndex := s.difficultyIndex + 1 }, [Signal.levelAlert])
        else (s1, [])
      else (s1, [])
  | Event.submitScore, s =>
      match s.mode with
      | none => (s, [])
      | some _ => ({ s with step := Step.leaderboard }, [])
  | Event.resetGame, s =>
      ({ s with mode := none, step := Step.selectMode, difficultyIndex := 0 }, [])

/-- Validity of the random draws of one spawn tick: the outer loop runs
`currentDifficulty.count` times, each `Math.random()` value lies in `[0, 1)`
(fifty are provided, one per possible attempt), and the glyph index
`Math.floor(Math.random() * length)` is below the catalog length. -/
def validOracles (s : GameState) (os : List BombOracle) : Bool :=
  os.length == (tierAt s.difficultyIndex).count &&
  os.all (fun o =>
    o.draws.length == maxAttempts &&
    o.draws.all (fun r => decide (0 ≤ r) && decide (r < 1)) &&
    (match s.mode with
     | some m => o.charIdx < (CHAR_SETS m).length
     | none => true))

/-- Which events can actually fire in a given state: the UI buttons exist
only on their screen, the fall and spawn intervals exist only while playing
(`step === "game" && !gameOver`, the cleanup of the interval effect), a
spawn tick consumes valid random draws, and the level-up effect re-runs
exactly when its dependency pair `[bombsCleared, difficultyIndex]` differs
from the one recorded at its previous run.  The keydown listener, the
floor-check interval and the lives effect are always installed (their
handlers guard internally). -/
def enabledB : Event → GameState → Bool
  | Event.startGame _ idx, s =>
      decide (s.step = Step.selectMode) && decide (idx < difficulties.length)
  | Event.keydown _, _ => true
  | Event.fall, s => decide (s.step = Step.game) && !s.gameOver
  | Event.spawn os, s => decide (s.step = Step.game) && !s.gameOver && validOracles s os
  | Event.floorCheck, _ => true
  | Event.livesEffect, _ => true
  | Event.levelEffect, s => !decide ((s.bombsCleared, s.difficultyIndex) = s.levelRan)
  | Event.submitScore, s => decide (s.step = Step.enterName)
  | Event.resetGame, s => decide (s.step = Step.leaderboard)

/-- The state after mounting: all `useState` initial values, `bombIdRef = 0`,
and the level-up effect has run once on mount with dependencies `(0, 0)`
(its body did nothing since `bombsCleared = 0`). -/
def initState : GameState :=
  { mode := none, difficultyIndex := 0, score := 0, lives := 10, gameOver := false,
    bombs := [], step := Step.selectMode, bombsCleared := 0, nextId := 0,
    levelRan := (0, 0) }

/-- Reachability: the states an actual run of the component can be in. -/
inductive Reach : GameState → Prop where
  | base : Reach initState
  | next {s : GameState} (e : Event) : Reach s → enabledB e s = true →
      Reach (applyEvent e s).1

/-- Runs a list of events from a state, ignoring the emitted signals. -/
def runTrace (s : GameState) : List Event → GameState
  | [] => s
  | e :: es => runTrace (applyEvent e s).1 es

/-- Checks that every event of a trace is enabled when it fires. -/
def chainOK (s : GameState) : List Event → Bool
  | [] => true
  | e :: es => enabledB e s && chainOK (applyEvent e s).1 es

/-! ## Concrete executions used below

The draws are `Math.random()` values: `0`, `1/6` and `1/3` place bombs at
`x = 20`, `x = 80` and `x = 140` (all at least `minDist = 50` apart), and
glyph index `0` picks `'A'` from the Latin catalog. -/

/-- Oracle for a one-bomb wave placed at `x = 20` bearing `'A'`. -/
def oneBombOracle : List BombOracle := [⟨List.replicate 50 0, 0⟩]

/-- Spawn one `'A'` bomb and immediately clear it with the `'A'` key. -/
def clearPair : List Event := [Event.spawn oneBombOracle, Event.keydown 'A']

/-- Start on the first tier, clear fifty bombs one at a time, then let the
level-up effect run four times: each run but the last advances the tier and
changes its own dependency pair, re-enabling it while `bombsCleared` is
still `50`. -/
def fiftyClears : List Event :=
  Event.startGame Mode.en 0 ::
    ((List.replicate 50 clearPair).flatten ++ List.replicate 4 Event.levelEffect)

/-- Oracle for a three-bomb wave at `x = 20`, `x = 80`, `x = 140`. -/
def oracle3 : List BombOracle :=
  [⟨List.replicate 50 0, 0⟩,
   ⟨(mkRat 1 6) :: List.replicate 49 0, 0⟩,
   ⟨(mkRat 1 3) :: List.replicate 49 0, 0⟩]

/-- One wave of three bombs, 48 fall ticks taking them to `y = 480`, and the
floor check that removes them and costs three lives. -/
def breachRound : List Event :=
  Event.spawn oracle3 :: (List.replicate 48 Event.fall ++ [Event.floorCheck])

/-- A full game on the hardest tier: three breach rounds bring lives from 10
to 1; a fourth wave falls to the floor, a fifth wave spawns above it, and the
floor check then clamps lives to 0 while the fifth wave is still airborne,
so the game-over transition fires with three bombs left in the field. -/
def lossTrace : List Event :=
  Event.startGame Mode.en 4 ::
    (breachRound ++ breachRound ++ breachRound ++
     (Event.spawn oracle3 :: (List.replicate 48 Event.fall ++
        [Event.spawn oracle3, Event.floorCheck, Event.livesEffect])))

/-- A reachable Playing state holding a single `'A'` bomb. -/
def witnessPlaying : GameState :=
  runTrace initState [Event.startGame Mode.en 0, Event.spawn oneBombOracle]

/-- A Playing state with two bombs at or past the floor line and one still
airborne, at one life. -/
def floorState : GameState :=
  { mode := some Mode.en, difficultyIndex := 4, score := 12, lives := 1, gameOver := false,
    bombs := [⟨0, 'A', 20, 480⟩, ⟨1, 'B', 80, 490⟩, ⟨2, 'C', 200, 100⟩],
    step := Step.game, bombsCleared := 12, nextId := 3, levelRan := (0, 0) }

/-- A Playing state in phonetic mode holding a single `'ㄅ'` bomb. -/
def zhState : GameState :=
  { mode := some Mode.zh, difficultyIndex := 0, score := 0, lives := 10, gameOver := false,
    bombs := [⟨0, 'ㄅ', 20, 0⟩], step := Step.game, bombsCleared := 0, nextId := 1,
    levelRan := (0, 0) }

/-! ## Leaderboard persistence model

The mount effect parses `localStorage.getItem("leaderboard_en") || "[]"` and
likewise for `zh` inside a single `try`; on an exception both boards keep
their initial empty value.  The outcome of `JSON.parse` on a stored string
is abstracted as: missing cell (`none`), a thrown exception
(`Except.error`), or a parsed value which either is an array of entries
(`JBoard.arr`) or is some other JSON value such as the number parsed from
the stored string `"5"` (`JBoard.nonArray`). -/

/-- One leaderboard entry `{ name, score, date }`. -/
structure LeaderboardEntry where
  name : String
  score : ℤ
  date : String
deriving Repr, DecidableEq

/-- A parsed JSON value as the leaderboard code sees it. -/
inductive JBoard where
  | arr (entries : List LeaderboardEntry) : JBoard
  | nonArray : JBoard
deriving Repr, DecidableEq

/-- Parsing one storage cell: a missing cell is replaced by the literal
`"[]"`, which parses to the empty array. -/
def parseCell : Option (Except Unit JBoard) → Except Unit JBoard
  | none => Except.ok (JBoard.arr [])
  | some r => r

/-- The mount effect: both cells are parsed inside one `try`; if either
parse throws, the `catch` leaves both boards at their initial empty value
(and clears the stored cells). -/
def loadBoards (en zh : Option (Except Unit JBoard)) : JBoard × JBoard :=
  match parseCell en with
  | Except.error _ => (JBoard.arr [], JBoard.arr [])
  | Except.ok enBoard =>
      match parseCell zh with
      | Except.error _ => (JBoard.arr [], JBoard.arr [])
      | Except.ok zhBoard => (enBoard, zhBoard)

/-- Stable insertion of an entry into a list sorted by descending score:
the entry goes before the first strictly-lower-scored element, after any
equal scores already present. -/
def insertEntryDesc (e : LeaderboardEntry) : List LeaderboardEntry → List LeaderboardEntry
  | [] => [e]
  | x :: xs => if x.score ≤ e.score then e :: x :: xs else x :: insertEntryDesc e xs

/-- A stable sort by descending score, modelling
`.sort((a, b) => b.score - a.score)`. -/
def sortEntriesDesc : List LeaderboardEntry → List LeaderboardEntry
  | [] => []
  | x :: xs => insertEntryDesc x (sortEntriesDesc xs)

/-- The spread `[...currentBoard, newEntry]` in `submitScore`: defined only
when the board value is actually an array; on any other JSON value the
JavaScript spread throws a `TypeError`, modelled as `Except.error`. -/
def spreadBoard : JBoard → Except Unit (List LeaderboardEntry)
  | JBoard.arr xs => Except.ok xs
  | JBoard.nonArray => Except.error ()

/-- The board computation of `submitScore`:
`[...currentBoard, newEntry].sort((a, b) => b.score - a.score).slice(0, 10)`. -/
def submitScoreBoard (board : JBoard) (entry : LeaderboardEntry) :
    Except Unit (List LeaderboardEntry) :=
  match spreadBoard board with
  | Except.error e => Except.error e
  | Except.ok xs => Except.ok ((sortEntriesDesc (xs ++ [entry])).take 10)

/-- Squared-distance separation between two bombs; `minDist * minDist ≤ dx*dx + dy*dy`
is the squared form of "their straight-line distance is at least `2.5 × bombRadius`". -/
def sep2 (b c : Bomb) : Prop :=
  minDist * minDist ≤ (b.x - c.x) * (b.x - c.x) + (b.y - c.y) * (b.y - c.y)

/-- Strict ordering of bombs by spawn id — the formal content of "older". -/
def idLt (b c : Bomb) : Prop := b.id < c.id

/-- The inductive invariant of reachable states: bombs are pairwise
separated by at least `minDist` in squared straight-line distance, the field
is ordered by strictly increasing spawn id (oldest first), every id is below
the `bombIdRef` counter, and lives lie in `[0, 10]`. -/
def StateInv (s : GameState) : Prop :=
  s.bombs.Pairwise sep2 ∧ s.bombs.Pairwise idLt ∧
  (∀ b ∈ s.bombs, b.id < s.nextId) ∧ 0 ≤ s.lives ∧ s.lives ≤ 10

/-! ## Helper lemmas -/

theorem resolveBombs_eq (m : Mode) (inputKey : Char) :
    ∀ l : List Bomb,
      resolveBombs m inputKey l =
        (l.eraseP (fun b => matchesKey m inputKey b.char),
         l.any (fun b => matchesKey m inputKey b.char)) := by
  intro l
  induction l with
  | nil => rfl
  | cons b rest ih =>
      simp only [resolveBombs, List.eraseP_cons, List.any_cons, ih]
      by_cases h : matchesKey m inputKey b.char
      · simp [h]
      · simp [h]

theorem placeLoop_not_overlap (allBombs : List Bomb) :
    ∀ (draws : List ℚ) (fuel : Nat) (x : ℚ),
      placeLoop allBombs draws fuel = some x →
      ∀ b ∈ allBombs, overlapsB x b = false := by
  intro draws
  induction draws with
  | nil => intro fuel x h; simp [placeLoop] at h
  | cons r rs ih =>
      intro fuel x h b hb
      simp only [placeLoop] at h
      by_cases hov : allBombs.any (fun b => overlapsB (drawX r) b) = true
      · rw [if_pos hov] at h
        by_cases hf : fuel ≤ 1
        · rw [if_pos hf] at h; exact absurd h (by simp)
        · rw [if_neg hf] at h; exact ih (fuel - 1) x h b hb
      · rw [if_neg hov] at h
        injection h with h
        subst h
        exact Bool.eq_false_iff.mpr
          (fun ht => hov (List.any_eq_true.mpr ⟨b, hb, ht⟩))

theorem placeLoop_bounds (allBombs : List Bomb) :
    ∀ (draws : List ℚ) (fuel : Nat) (x : ℚ),
      (∀ r ∈ draws, 0 ≤ r ∧ r < 1) →
      placeLoop allBombs draws fuel = some x →
      bombRadius ≤ x ∧ x ≤ canvasWidth - bombRadius := by
  intro draws
  induction draws with
  | nil => intro fuel x _ h; simp [placeLoop] at h
  | cons r rs ih =>
      intro fuel x hr h
      simp only [placeLoop] at h
      by_cases hov : allBombs.any (fun b => overlapsB (drawX r) b) = true
      · rw [if_pos hov] at h
        by_cases hf : fuel ≤ 1
        · rw [if_pos hf] at h; exact absurd h (by simp)
        · rw [if_neg hf] at h
          exact ih (fuel - 1) x (fun q hq => hr q (List.mem_cons_of_mem _ hq)) h
      · rw [if_neg hov] at h
        injection h with h
        subst h
        obtain ⟨h0, h1⟩ := hr r (List.mem_cons_self _ _)
        unfold drawX canvasWidth bombRadius
        constructor
        · nlinarith
        · nlinarith

theorem sep2_of_overlapsB_false {x : ℚ} {b : Bomb} (h : overlapsB x b = false)
    (n : Nat) (c : Char) : sep2 b ⟨n, c, x, 0⟩ := by
  have h2 : ¬ ((x - b.x) * (x - b.x) + (0 - b.y) * (0 - b.y) < minDist * minDist) := by
    simpa [overlapsB] using h
  have h3 : minDist * minDist ≤ (x - b.x) * (x - b.x) + (0 - b.y) * (0 - b.y) :=
    le_of_not_lt h2
  show minDist * minDist ≤ (b.x - x) * (b.x - x) + (b.y - 0) * (b.y - 0)
  nlinarith [h3]

theorem spawnWaveAux_pairwise (chars : List Char) (prev : List Bomb) :
    ∀ (os : List BombOracle) (batch : List Bomb) (nid : Nat),
      (prev ++ batch).Pairwise sep2 →
      (prev ++ (spawnWaveAux chars prev os batch nid).1).Pairwise sep2 := by
  intro os
  induction os with
  | nil => intro batch nid h; exact h
  | cons o os ih =>
      intro batch nid h
      simp only [spawnWaveAux]
      cases hpl : placeLoop (prev ++ batch) o.draws maxAttempts with
      | none => exact ih batch nid h
      | some newX =>
          apply ih
          rw [← List.append_assoc, List.pairwise_append]
          refine ⟨h, by simp, ?_⟩
          intro a ha b hb
          rw [List.mem_singleton] at hb
          subst hb
          exact sep2_of_overlapsB_false
            (placeLoop_not_overlap (prev ++ batch) o.draws maxAttempts newX hpl a ha) _ _

theorem spawnWaveAux_length (chars : List Char) (prev : List Bomb) :
    ∀ (os : List BombOracle) (batch : List Bomb) (nid : Nat),
      (spawnWaveAux chars prev os batch nid).1.length ≤ batch.length + os.length := by
  intro os
  induction os with
  | nil => intro batch nid; simp [spawnWaveAux]
  | cons o os ih =>
      intro batch nid
      simp only [spawnWaveAux]
      cases hpl : placeLoop (prev ++ batch) o.draws maxAttempts with
      | none =>
          have := ih batch nid
          simp only [List.length_cons]
          omega
      | some newX =>
          have := ih (batch ++ [⟨nid, chars.getD o.charIdx 'A', newX, 0⟩]) (nid + 1)
          simp only [List.length_append, List.length_cons, List.length_nil] at this ⊢
          omega

theorem spawnWaveAux_ids (chars : List Char) (prev : List Bomb) :
    ∀ (os : List BombOracle) (batch : List Bomb) (nid : Nat),
      (∀ b ∈ prev ++ batch, b.id < nid) →
      (prev ++ batch).Pairwise idLt →
      (∀ b ∈ prev ++ (spawnWaveAux chars prev os batch nid).1,
          b.id < (spawnWaveAux chars prev os batch nid).2) ∧
      (prev ++ (spawnWaveAux chars prev os batch nid).1).Pairwise idLt := by
  intro os
  induction os with
  | nil => intro batch nid hb hp; exact ⟨hb, hp⟩
  | cons o os ih =>
      intro batch nid hb hp
      simp only [spawnWaveAux]
      cases hpl : placeLoop (prev ++ batch) o.draws maxAttempts with
      | none => exact ih batch nid hb hp
      | some newX =>
          apply ih
          · intro b hbmem
            rw [← List.append_assoc] at hbmem
            rcases List.mem_append.mp hbmem with hold | hnew
            · exact Nat.lt_succ_of_lt (hb b hold)
            · rw [List.mem_singleton] at hnew
              subst hnew
              exact Nat.lt_succ_self nid
          · rw [← List.append_assoc, List.pairwise_append]
            refine ⟨hp, by simp, ?_⟩
            intro a ha b hbmem
            rw [List.mem_singleton] at hbmem
            subst hbmem
            exact hb a ha

theorem applyEvent_inv (e : Event) (s : GameState) (h : StateInv s) :
    StateInv (applyEvent e s).1 := by
  obtain ⟨hsep, hid, hbound, hl0, hl10⟩ := h
  cases e with
  | startGame m idx =>
      refine ⟨by simp [applyEvent], by simp [applyEvent], by simp [applyEvent], ?_, ?_⟩ <;>
        simp [applyEvent]
  | keydown k =>
      simp only [applyEvent]
      split
      · exact ⟨hsep, hid, hbound, hl0, hl10⟩
      · rename_i m _
        split
        · exact ⟨hsep, hid, hbound, hl0, hl10⟩
        · rw [resolveBombs_eq]
          have hsub : List.Sublist
              (s.bombs.eraseP fun b => matchesKey m k.toUpper b.char) s.bombs :=
            List.eraseP_sublist _
          split <;>
            exact ⟨List.Pairwise.sublist hsub hsep, List.Pairwise.sublist hsub hid,
              fun b hbm => hbound b (hsub.subset hbm), hl0, hl10⟩
  | fall =>
      simp only [applyEvent]
      refine ⟨?_, ?_, ?_, hl0, hl10⟩
      · rw [List.pairwise_map]
        refine hsep.imp ?_
        intro a b hab
        simp only [sep2] at hab ⊢
        have : a.y + 10 - (b.y + 10) = a.y - b.y := by ring
        rw [this]
        exact hab
      · rw [List.pairwise_map]
        exact hid.imp (fun hab => hab)
      · intro b hbm
        rw [List.mem_map] at hbm
        obtain ⟨a, ham, rfl⟩ := hbm
        exact hbound a ham
  | spawn os =>
      simp only [applyEvent]
      split
      · exact ⟨hsep, hid, hbound, hl0, hl10⟩
      · rename_i m _
        simp only [createBombChars]
        split
        · exact ⟨hsep, hid, hbound, hl0, hl10⟩
        · have hsep2 := spawnWaveAux_pairwise (CHAR_SETS m) s.bombs os [] s.nextId
            (by simpa using hsep)
          have hids := spawnWaveAux_ids (CHAR_SETS m) s.bombs os [] s.nextId
            (by simpa using hbound) (by simpa using hid)
          exact ⟨hsep2, hids.2, hids.1, hl0, hl10⟩
  | floorCheck =>
      simp only [applyEvent]
      split
      · exact ⟨hsep, hid, hbound, hl0, hl10⟩
      · have hsub : List.Sublist
            (s.bombs.filter fun b => !decide ((500 : ℚ) - 20 ≤ b.y)) s.bombs :=
          List.filter_sublist _
        split
        · refine ⟨List.Pairwise.sublist hsub hsep, List.Pairwise.sublist hsub hid,
            fun b hbm => hbound b (hsub.subset hbm), le_max_left _ _, ?_⟩
          have hcast : (0 : ℤ) ≤
              ((s.bombs.filter fun b => decide ((500 : ℚ) - 20 ≤ b.y)).length : ℤ) :=
            Int.natCast_nonneg _
          exact max_le (by norm_num) (by linarith)
        · exact ⟨List.Pairwise.sublist hsub hsep, List.Pairwise.sublist hsub hid,
            fun b hbm => hbound b (hsub.subset hbm), hl0, hl10⟩
  | livesEffect =>
      simp only [applyEvent]
      split
      · exact ⟨hsep, hid, hbound, hl0, hl10⟩
      · exact ⟨hsep, hid, hbound, hl0, hl10⟩
  | levelEffect =>
      simp only [applyEvent]
      split
      · split
        · exact ⟨hsep, hid, hbound, hl0, hl10⟩
        · exact ⟨hsep, hid, hbound, hl0, hl10⟩
      · exact ⟨hsep, hid, hbound, hl0, hl10⟩
  | submitScore =>
      simp only [applyEvent]
      split <;> exact ⟨hsep, hid, hbound, hl0, hl10⟩
  | resetGame =>
      exact ⟨hsep, hid, hbound, hl0, hl10⟩

theorem reach_inv {s : GameState} (h : Reach s) : StateInv s := by
  induction h with
  | base =>
      refine ⟨by simp [initState], by simp [initState], by simp [initState], ?_, ?_⟩ <;>
        simp [initState]
  | next e _ _ ih => exact applyEvent_inv e _ ih

theorem keydown_preserves (k : Char) (s : GameState) :
    (applyEvent (Event.keydown k) s).1.step = s.step ∧
    (applyEvent (Event.keydown k) s).1.lives = s.lives ∧
    (applyEvent (Event.keydown k) s).1.gameOver = s.gameOver ∧
    (applyEvent (Event.keydown k) s).1.mode = s.mode := by
  simp only [applyEvent]
  split
  · exact ⟨rfl, rfl, rfl, rfl⟩
  · split
    · exact ⟨rfl, rfl, rfl, rfl⟩
    · split <;> exact ⟨rfl, rfl, rfl, rfl⟩

theorem spawn_preserves (os : List BombOracle) (s : GameState) :
    (applyEvent (Event.spawn os) s).1.step = s.step ∧
    (applyEvent (Event.spawn os) s).1.lives = s.lives ∧
    (applyEvent (Event.spawn os) s).1.gameOver = s.gameOver := by
  simp only [applyEvent]
  split <;> exact ⟨rfl, rfl, rfl⟩

theorem floorCheck_preserves (s : GameState) :
    (applyEvent Event.floorCheck s).1.step = s.step ∧
    (applyEvent Event.floorCheck s).1.gameOver = s.gameOver ∧
    (applyEvent Event.floorCheck s).1.mode = s.mode := by
  simp only [applyEvent]
  split
  · exact ⟨rfl, rfl, rfl⟩
  · split <;> exact ⟨rfl, rfl, rfl⟩

theorem levelEffect_preserves (s : GameState) :
    (applyEvent Event.levelEffect s).1.step = s.step ∧
    (applyEvent Event.levelEffect s).1.lives = s.lives ∧
    (applyEvent Event.levelEffect s).1.bombs = s.bombs := by
  simp only [applyEvent]
  split
  · split <;> exact ⟨rfl, rfl, rfl⟩
  · exact ⟨rfl, rfl, rfl⟩

theorem livesEffect_cases (s : GameState) :
    (applyEvent Event.livesEffect s).1 = s ∨
    (s.lives ≤ 0 ∧ s.step = Step.game ∧
      (applyEvent Event.livesEffect s).1.step = Step.enterName ∧
      (applyEvent Event.livesEffect s).1.gameOver = true ∧
      (applyEvent Event.livesEffect s).1.lives = s.lives ∧
      (applyEvent Event.livesEffect s).1.bombs = s.bombs) := by
  simp only [applyEvent]
  split
  · rename_i hcond
    exact Or.inr ⟨hcond.1, hcond.2, rfl, rfl, rfl, rfl⟩
  · exact Or.inl rfl

theorem submitScore_cases (s : GameState) :
    (applyEvent Event.submitScore s).1 = s ∨
    ((applyEvent Event.submitScore s).1.step = Step.leaderboard ∧
      (applyEvent Event.submitScore s).1.lives = s.lives ∧
      (applyEvent Event.submitScore s).1.bombs = s.bombs) := by
  simp only [applyEvent]
  split
  · exact Or.inl rfl
  · exact Or.inr ⟨rfl, rfl, rfl⟩

/-- With a positive attempt budget (the loop always starts at
`maxAttempts = 50`) only the first `fuel` draws are ever inspected: the
retry loop makes at most `fuel` attempts. -/
theorem placeLoop_take (allBombs : List Bomb) :
    ∀ (draws : List ℚ) (fuel : Nat), 1 ≤ fuel →
      placeLoop allBombs draws fuel = placeLoop allBombs (draws.take fuel) fuel := by
  intro draws
  induction draws with
  | nil => intro fuel _; simp
  | cons r rs ih =>
      intro fuel hfuel
      match fuel, hfuel with
      | fuel + 1, _ =>
          simp only [List.take_succ_cons, placeLoop]
          by_cases hov : allBombs.any (fun b => overlapsB (drawX r) b) = true
          · rw [if_pos hov, if_pos hov]
            by_cases hf : fuel + 1 ≤ 1
            · rw [if_pos hf, if_pos hf]
            · rw [if_neg hf, if_neg hf]
              have h1 : 1 ≤ fuel := by omega
              simpa using ih fuel h1
          · rw [if_neg hov, if_neg hov]

theorem reach_runTrace {s : GameState} (hs : Reach s) :
    ∀ es : List Event, chainOK s es = true → Reach (runTrace s es) := by
  intro es
  induction es generalizing s with
  | nil => intro _; exact hs
  | cons e es ih =>
      intro h
      simp only [chainOK, Bool.and_eq_true] at h
      exact ih (Reach.next e hs h.1) h.2

/-! ## Claim theorems -/

/-- Claim C1: while the session is Playing, hit resolution scans the bomb
field in insertion order (the field is ordered oldest-spawned-first, by
strictly increasing id) and removes exactly the first bomb whose required
key equals the uppercased pressed key; at most one bomb is removed per
keystroke even when several match, score and clearedCount each increase by
exactly 1 on a hit, and nothing changes when no bomb matches. -/
theorem hit_resolution_first_match (s : GameState) (k : Char) (m : Mode)
    (hstep : s.step = Step.game) (hgo : s.gameOver = false) (hm : s.mode = some m)
    (hr : Reach s) :
    s.bombs.Pairwise idLt ∧
    ((applyEvent (Event.keydown k) s).1.bombs =
        s.bombs.eraseP fun b => matchesKey m k.toUpper b.char) ∧
    ((s.bombs.any fun b => matchesKey m k.toUpper b.char) = true →
        (applyEvent (Event.keydown k) s).1.score = s.score + 1 ∧
        (applyEvent (Event.keydown k) s).1.bombsCleared = s.bombsCleared + 1 ∧
        (applyEvent (Event.keydown k) s).1.bombs.length + 1 = s.bombs.length ∧
        ∃ l₁ b l₂, s.bombs = l₁ ++ b :: l₂ ∧
          (∀ b2 ∈ l₁, matchesKey m k.toUpper b2.char = false) ∧
          matchesKey m k.toUpper b.char = true ∧
          (applyEvent (Event.keydown k) s).1.bombs = l₁ ++ l₂) ∧
    ((s.bombs.any fun b => matchesKey m k.toUpper b.char) = false →
        (applyEvent (Event.keydown k) s).1 = s) := by
  have hcond : ¬ (s.step ≠ Step.game ∨ s.gameOver = true) := by simp [hstep, hgo]
  have happ : applyEvent (Event.keydown k) s =
      (if (s.bombs.any fun b => matchesKey m k.toUpper b.char) = true then
        { s with bombs := s.bombs.eraseP fun b => matchesKey m k.toUpper b.char,
                 score := s.score + 1, bombsCleared := s.bombsCleared + 1 }
       else { s with bombs := s.bombs.eraseP fun b => matchesKey m k.toUpper b.char },
       if (s.bombs.any fun b => matchesKey m k.toUpper b.char) = true then [Signal.hit]
       else []) := by
    simp only [applyEvent, hm, resolveBombs_eq, if_neg hcond]
    split <;> rfl
  refine ⟨(reach_inv hr).2.1, ?_, ?_, ?_⟩
  · rw [happ]
    split <;> rfl
  · intro hany
    rw [happ, if_pos hany]
    obtain ⟨b, hbmem, hpb⟩ := List.any_eq_true.mp hany
    obtain ⟨a, l₁, l₂, hnot, hpa, hsplit, herase⟩ :=
      @List.exists_of_eraseP Bomb (fun b => matchesKey m k.toUpper b.char) s.bombs b hbmem hpb
    have hpos : 0 < s.bombs.length := List.length_pos.mpr (List.ne_nil_of_mem hbmem)
    have hlen := @List.length_eraseP_of_mem Bomb s.bombs b
      (fun b => matchesKey m k.toUpper b.char) hbmem hpb
    refine ⟨rfl, rfl, ?_, l₁, a, l₂, hsplit, ?_, hpa, ?_⟩
    · show (s.bombs.eraseP fun b => matchesKey m k.toUpper b.char).length + 1 = s.bombs.length
      omega
    · intro b2 hb2
      exact Bool.eq_false_iff.mpr (hnot b2 hb2)
    · exact herase
  · intro hnone
    rw [happ, if_neg (by simp [hnone])]
    have herase : (s.bombs.eraseP fun b => matchesKey m k.toUpper b.char) = s.bombs := by
      apply List.eraseP_of_forall_not
      intro a ha
      simp only [List.any_eq_false] at hnone
      exact hnone a ha
    rw [herase]

/-- Claim C5: a floor check during Playing removes exactly the bombs with
`y ≥ 500 - 20`, decrements lives by the breach count clamped at zero, emits
the miss signal once per cycle (not once per bomb, and only when a breach
occurred), and in the scenario lives = 1 with two breaching bombs the lives
value becomes 0 and the subsequent lives effect moves the phase to Ended. -/
theorem floor_check_spec (s : GameState)
    (hstep : s.step = Step.game) (hgo : s.gameOver = false) :
    ((applyEvent Event.floorCheck s).1.bombs =
        s.bombs.filter fun b => !decide ((500 : ℚ) - 20 ≤ b.y)) ∧
    ((applyEvent Event.floorCheck s).1.lives =
        if 0 < (s.bombs.filter fun b => decide ((500 : ℚ) - 20 ≤ b.y)).length then
          max 0 (s.lives - (s.bombs.filter fun b => decide ((500 : ℚ) - 20 ≤ b.y)).length)
        else s.lives) ∧
    ((applyEvent Event.floorCheck s).2 =
        if 0 < (s.bombs.filter fun b => decide ((500 : ℚ) - 20 ≤ b.y)).length then
          [Signal.fail] else []) ∧
    (0 < (s.bombs.filter fun b => decide ((500 : ℚ) - 20 ≤ b.y)).length →
        0 ≤ (applyEvent Event.floorCheck s).1.lives) ∧
    (s.lives = 1 → (s.bombs.filter fun b => decide ((500 : ℚ) - 20 ≤ b.y)).length = 2 →
        (applyEvent Event.floorCheck s).1.lives = 0 ∧
        (applyEvent Event.livesEffect (applyEvent Event.floorCheck s).1).1.step =
          Step.enterName ∧
        (applyEvent Event.livesEffect (applyEvent Event.floorCheck s).1).1.gameOver = true) := by
  have hcond : ¬ (s.step ≠ Step.game ∨ s.gameOver = true) := by simp [hstep, hgo]
  by_cases hl : 0 < (s.bombs.filter fun b => decide ((500 : ℚ) - 20 ≤ b.y)).length
  case pos =>
    have happ : applyEvent Event.floorCheck s =
        ({ s with bombs := s.bombs.filter fun b => !decide ((500 : ℚ) - 20 ≤ b.y),
                  lives := max 0 (s.lives -
                    (s.bombs.filter fun b => decide ((500 : ℚ) - 20 ≤ b.y)).length) },
         [Signal.fail]) := by
      simp only [applyEvent, if_neg hcond]
      rw [if_pos hl]
    rw [happ]
    refine ⟨rfl, by rw [if_pos hl], by rw [if_pos hl], fun _ => le_max_left _ _, ?_⟩
    intro h1 h2
    have hlive : max 0 (s.lives -
        ((s.bombs.filter fun b => decide ((500 : ℚ) - 20 ≤ b.y)).length : ℤ)) = 0 := by
      rw [h1, h2]
      norm_num
    refine ⟨hlive, ?_, ?_⟩ <;>
    · show _
      simp only [applyEvent]
      rw [if_pos ⟨by rw [hlive], hstep⟩]
  case neg =>
    have happ : applyEvent Event.floorCheck s =
        ({ s with bombs := s.bombs.filter fun b => !decide ((500 : ℚ) - 20 ≤ b.y) }, []) := by
      simp only [applyEvent, if_neg hcond]
      rw [if_neg hl]
    rw [happ]
    refine ⟨rfl, by rw [if_neg hl], by rw [if_neg hl], fun h => absurd h hl, ?_⟩
    intro h1 h2
    rw [h2] at hl
    exact absurd (by norm_num) hl

/-- Claim C6: in reachable states lives stays within `[0, 10]`; while
Playing no enabled event increases lives; the phase can leave Playing only
through the lives effect at the moment lives equals exactly 0 (never while
positive), landing in Ended with the game-over flag set; and the only way
into Playing is a fresh `startGame` from the mode-selection screen, so the
Playing-to-Ended transition happens at most once per session. -/
theorem lives_monotone_single_gameover :
    (∀ s : GameState, Reach s → 0 ≤ s.lives ∧ s.lives ≤ 10) ∧
    (∀ (e : Event) (s : GameState), Reach s → enabledB e s = true →
        s.step = Step.game → (applyEvent e s).1.lives ≤ s.lives) ∧
    (∀ (e : Event) (s : GameState), Reach s → enabledB e s = true →
        s.step = Step.game → (applyEvent e s).1.step ≠ Step.game →
        s.lives = 0 ∧ (applyEvent e s).1.step = Step.enterName ∧
          (applyEvent e s).1.gameOver = true) ∧
    (∀ (e : Event) (s : GameState), enabledB e s = true → s.step ≠ Step.game →
        (applyEvent e s).1.step = Step.game →
        s.step = Step.selectMode ∧ ∃ m idx, e = Event.startGame m idx) := by
  refine ⟨?_, ?_, ?_, ?_⟩
  · intro s hr
    exact ⟨(reach_inv hr).2.2.2.1, (reach_inv hr).2.2.2.2⟩
  · intro e s hr hen hstep
    cases e with
    | startGame m idx =>
        simp only [enabledB, Bool.and_eq_true, decide_eq_true_eq] at hen
        rw [hstep] at hen
        exact absurd hen.1 (by decide)
    | keydown k => rw [(keydown_preserves k s).2.1]
    | fall => exact le_refl _
    | spawn os => rw [(spawn_preserves os s).2.1]
    | floorCheck =>
        have h0 : (0 : ℤ) ≤ s.lives := (reach_inv hr).2.2.2.1
        simp only [applyEvent]
        split
        · exact le_refl _
        · split
          · have hc : (0 : ℤ) ≤
                ((s.bombs.filter fun b => decide ((500 : ℚ) - 20 ≤ b.y)).length : ℤ) :=
              Int.natCast_nonneg _
            exact max_le h0 (by linarith)
          · exact le_refl _
    | livesEffect =>
        simp only [applyEvent]
        split <;> exact le_refl _
    | levelEffect => rw [(levelEffect_preserves s).2.1]
    | submitScore =>
        simp only [enabledB, decide_eq_true_eq] at hen
        rw [hstep] at hen
        exact absurd hen (by decide)
    | resetGame =>
        simp only [enabledB, decide_eq_true_eq] at hen
        rw [hstep] at hen
        exact absurd hen (by decide)
  · intro e s hr hen hstep hne
    cases e with
    | startGame m idx =>
        simp only [enabledB, Bool.and_eq_true, decide_eq_true_eq] at hen
        rw [hstep] at hen
        exact absurd hen.1 (by decide)
    | keydown k => exact absurd (by rw [(keydown_preserves k s).1, hstep]) hne
    | fall => exact absurd hstep hne
    | spawn os => exact absurd (by rw [(spawn_preserves os s).1, hstep]) hne
    | floorCheck => exact absurd (by rw [(floorCheck_preserves s).1, hstep]) hne
    | livesEffect =>
        simp only [applyEvent]
        simp only [applyEvent] at hne
        split
        · rename_i hcnd
          have h0 : (0 : ℤ) ≤ s.lives := (reach_inv hr).2.2.2.1
          exact ⟨le_antisymm hcnd.1 h0, rfl, rfl⟩
        · rename_i hcnd
          rw [if_neg hcnd] at hne
          exact absurd hstep hne
    | levelEffect => exact absurd (by rw [(levelEffect_preserves s).1, hstep]) hne
    | submitScore =>
        simp only [enabledB, decide_eq_true_eq] at hen
        rw [hstep] at hen
        exact absurd hen (by decide)
    | resetGame =>
        simp only [enabledB, decide_eq_true_eq] at hen
        rw [hstep] at hen
        exact absurd hen (by decide)
  · intro e s hen hne hgame
    cases e with
    | startGame m idx =>
        refine ⟨?_, m, idx, rfl⟩
        simp only [enabledB, Bool.and_eq_true, decide_eq_true_eq] at hen
        exact hen.1
    | keydown k => exact absurd (by rw [← (keydown_preserves k s).1, hgame]) hne
    | fall =>
        simp only [enabledB, Bool.and_eq_true, decide_eq_true_eq] at hen
        exact absurd hen.1 hne
    | spawn os =>
        simp only [enabledB, Bool.and_eq_true, decide_eq_true_eq] at hen
        exact absurd hen.1.1 hne
    | floorCheck => exact absurd (by rw [← (floorCheck_preserves s).1, hgame]) hne
    | livesEffect =>
        rcases livesEffect_cases s with h | h
        · rw [h] at hgame; exact absurd hgame hne
        · rw [hgame] at h
          exact absurd h.2.2.1 (by decide)
    | levelEffect => exact absurd (by rw [← (levelEffect_preserves s).1, hgame]) hne
    | submitScore =>
        rcases submitScore_cases s with h | h
        · rw [h] at hgame; exact absurd hgame hne
        · rw [hgame] at h
          exact absurd h.1 (by decide)
    | resetGame =>
        have hs : (applyEvent Event.resetGame s).1.step = Step.selectMode := rfl
        rw [hs] at hgame
        exact absurd hgame (by decide)

set_option maxRecDepth 4000000

/-- Claim C1 witness: in a concrete reachable Playing state with one `'A'`
bomb, pressing `'a'` increments the score and removes exactly one bomb. -/
theorem hit_resolution_first_match_witness :
    (applyEvent (Event.keydown 'a') witnessPlaying).1.score = witnessPlaying.score + 1 ∧
    (applyEvent (Event.keydown 'a') witnessPlaying).1.bombs.length + 1 =
      witnessPlaying.bombs.length := by
  have hr : Reach witnessPlaying :=
    reach_runTrace Reach.base _ (by with_unfolding_all decide)
  have h := hit_resolution_first_match witnessPlaying 'a' Mode.en
    (by with_unfolding_all decide) (by with_unfolding_all decide)
    (by with_unfolding_all decide) hr
  have hany : (witnessPlaying.bombs.any fun b =>
      matchesKey Mode.en 'a'.toUpper b.char) = true := by
    with_unfolding_all decide
  obtain ⟨-, -, h3, -⟩ := h
  obtain ⟨hscore, -, hlen, -⟩ := h3 hany
  exact ⟨hscore, hlen⟩

/-- Claim C5 witness: on the concrete state with lives 1 and two breaching
bombs, the floor check clamps lives to 0, fires the miss signal once, and
the lives effect then ends the game. -/
theorem floor_check_spec_witness :
    (applyEvent Event.floorCheck floorState).1.lives = 0 ∧
    (applyEvent Event.livesEffect (applyEvent Event.floorCheck floorState).1).1.step =
      Step.enterName ∧
    (applyEvent Event.floorCheck floorState).2 = [Signal.fail] := by
  have h := floor_check_spec floorState rfl rfl
  obtain ⟨-, -, hsig, -, hscen⟩ := h
  obtain ⟨hl, hstep2, -⟩ := hscen rfl (by with_unfolding_all decide)
  refine ⟨hl, hstep2, ?_⟩
  rw [hsig, if_pos (by with_unfolding_all decide)]

/-- Claim C6 witness: the lives bounds hold at the initial state. -/
theorem lives_monotone_single_gameover_witness :
    0 ≤ initState.lives ∧ initState.lives ≤ 10 :=
  lives_monotone_single_gameover.1 initState Reach.base

/-- Claim C2 evidence: a session that clears its fiftieth bomb at tier 0
is reachable, and after the level-up effect settles the tier index is 4 —
the effect re-ran (its dependency pair changed when it advanced the tier)
and advanced again and again at the same threshold crossing, instead of
advancing exactly once to tier 1. -/
theorem level_cascade_at_fifty :
    Reach (runTrace initState fiftyClears) ∧
    (runTrace initState fiftyClears).bombsCleared = 50 ∧
    (runTrace initState fiftyClears).difficultyIndex = 4 := by
  refine ⟨reach_runTrace Reach.base fiftyClears (by with_unfolding_all decide), ?_, ?_⟩ <;>
    with_unfolding_all decide

/-- Claim C3 counterexample: a reachable state whose phase is Ended
(`enter-name`) while the bomb field is not empty: the game-over transition
does not clear the field. -/
theorem bombs_persist_after_ended :
    Reach (runTrace initState lossTrace) ∧
    (runTrace initState lossTrace).step = Step.enterName ∧
    (runTrace initState lossTrace).bombs ≠ [] := by
  refine ⟨reach_runTrace Reach.base lossTrace (by with_unfolding_all decide), ?_, ?_⟩ <;>
    with_unfolding_all decide

/-- Claim C3 (amended): outside the Playing phase no enabled event changes
the bomb field except `startGame`, which empties it on entering Playing; in
particular leftover bombs of an ended session persist until the next game
starts. -/
theorem bombs_outside_playing (e : Event) (s : GameState)
    (hen : enabledB e s = true) (hne : s.step ≠ Step.game) :
    (applyEvent e s).1.bombs = s.bombs ∨
      ((applyEvent e s).1.bombs = [] ∧ ∃ m idx, e = Event.startGame m idx) := by
  cases e with
  | startGame m idx => exact Or.inr ⟨rfl, m, idx, rfl⟩
  | keydown k =>
      simp only [applyEvent]
      split
      · exact Or.inl rfl
      · split
        · exact Or.inl rfl
        · rename_i hcnd
          exact absurd (Or.inl hne) hcnd
  | fall =>
      simp only [enabledB, Bool.and_eq_true, decide_eq_true_eq] at hen
      exact absurd hen.1 hne
  | spawn os =>
      simp only [enabledB, Bool.and_eq_true, decide_eq_true_eq] at hen
      exact absurd hen.1.1 hne
  | floorCheck =>
      simp only [applyEvent]
      split
      · exact Or.inl rfl
      · rename_i hcnd
        exact absurd (Or.inl hne) hcnd
  | livesEffect =>
      simp only [applyEvent]
      split
      · exact Or.inl rfl
      · exact Or.inl rfl
  | levelEffect => exact Or.inl (levelEffect_preserves s).2.2
  | submitScore =>
      simp only [applyEvent]
      split
      · exact Or.inl rfl
      · exact Or.inl rfl
  | resetGame => exact Or.inl rfl

/-- Claim C3 witness: the amended statement applied to a floor check at the
initial (mode-selection) state. -/
theorem bombs_outside_playing_witness :
    (applyEvent Event.floorCheck initState).1.bombs = initState.bombs ∨
      ((applyEvent Event.floorCheck initState).1.bombs = [] ∧
        ∃ m idx, Event.floorCheck = Event.startGame m idx) :=
  bombs_outside_playing Event.floorCheck initState (by decide) (by decide)

/-- Claim C4: an accepted spawn candidate is drawn within
`[bombRadius, canvasWidth − bombRadius]`; the retry loop inspects at most
`maxAttempts` draws; an accepted candidate is at squared distance at least
`minDist²` from every bomb it was checked against; an exhausted bomb is
dropped, so a wave only ever adds between 0 and `count` bombs; and in every
reachable state the field is pairwise `minDist`-separated, in particular no
two bombs at equal height are closer than `minDist` horizontally. -/
theorem spawn_placement_spec :
    (∀ r : ℚ, 0 ≤ r → r < 1 →
        bombRadius ≤ drawX r ∧ drawX r ≤ canvasWidth - bombRadius) ∧
    (∀ (allBombs : List Bomb) (draws : List ℚ) (x : ℚ),
        (∀ r ∈ draws, 0 ≤ r ∧ r < 1) →
        placeLoop allBombs draws maxAttempts = some x →
        bombRadius ≤ x ∧ x ≤ canvasWidth - bombRadius) ∧
    (∀ (allBombs : List Bomb) (draws : List ℚ) (x : ℚ),
        placeLoop allBombs draws maxAttempts = some x →
        ∀ b ∈ allBombs, minDist * minDist ≤
          (x - b.x) * (x - b.x) + (0 - b.y) * (0 - b.y)) ∧
    (∀ (allBombs : List Bomb) (draws : List ℚ),
        placeLoop allBombs draws maxAttempts =
          placeLoop allBombs (draws.take maxAttempts) maxAttempts) ∧
    (∀ (chars : List Char) (prev : List Bomb) (nid : Nat) (os : List BombOracle),
        prev.length ≤ (createBombChars chars prev nid os).1.length ∧
        (createBombChars chars prev nid os).1.length ≤ prev.length + os.length) ∧
    (∀ s : GameState, Reach s → s.bombs.Pairwise sep2) ∧
    (∀ s : GameState, Reach s → ∀ b ∈ s.bombs, ∀ c ∈ s.bombs, b ≠ c →
        b.y = c.y → minDist * minDist ≤ (b.x - c.x) * (b.x - c.x)) := by
  have hsymm : Symmetric sep2 := by
    intro a b h
    simp only [sep2] at h ⊢
    nlinarith [h]
  refine ⟨?_, ?_, ?_, ?_, ?_, ?_, ?_⟩
  · intro r h0 h1
    unfold drawX canvasWidth bombRadius
    constructor
    · nlinarith
    · nlinarith
  · intro allBombs draws x hr h
    exact placeLoop_bounds allBombs draws maxAttempts x hr h
  · intro allBombs draws x h b hb
    have := placeLoop_not_overlap allBombs draws maxAttempts x h b hb
    simp only [overlapsB, decide_eq_false_iff_not, not_lt] at this
    exact this
  · intro allBombs draws
    exact placeLoop_take allBombs draws maxAttempts (by norm_num [maxAttempts])
  · intro chars prev nid os
    simp only [createBombChars]
    split
    · exact ⟨le_refl _, Nat.le_add_right _ _⟩
    · have h1 := spawnWaveAux_length chars prev os [] nid
      simp only [List.length_nil, Nat.zero_add] at h1
      simp only [List.length_append]
      omega
  · intro s hr
    exact (reach_inv hr).1
  · intro s hr b hb c hc hne hy
    have hp := (reach_inv hr).1
    have hsep := List.Pairwise.forall hsymm hp hb hc hne
    simp only [sep2, hy] at hsep
    nlinarith [hsep]

/-- Claim C4 witness: a concrete accepted draw lies in bounds, and the
separation invariant holds at the initial state. -/
theorem spawn_placement_spec_witness :
    bombRadius ≤ (20 : ℚ) ∧ (20 : ℚ) ≤ canvasWidth - bombRadius ∧
    List.Pairwise sep2 initState.bombs := by
  have h := spawn_placement_spec.2.1 [] [0] 20 (by norm_num)
    (by with_unfolding_all decide)
  exact ⟨h.1, h.2, spawn_placement_spec.2.2.2.2.2.1 initState Reach.base⟩

/-- Claim C7 counterexample: starting a game with the third difficulty
button selected enters Playing with tier index 2, not 0. -/
theorem start_tier_not_zero :
    Reach (applyEvent (Event.startGame Mode.en 2) initState).1 ∧
    (applyEvent (Event.startGame Mode.en 2) initState).1.step = Step.game ∧
    (applyEvent (Event.startGame Mode.en 2) initState).1.difficultyIndex ≠ 0 :=
  ⟨Reach.next (Event.startGame Mode.en 2) Reach.base (by decide), rfl, by decide⟩

/-- Claim C7 (amended): whenever a session enters Playing via `startGame`,
score, clearedCount and the bomb field are reset and lives is 10, but the
tier index is set to the difficulty selected by the player (not necessarily
0); it is reset to 0 by `resetGame` on returning to mode selection. -/
theorem start_game_resets (m : Mode) (idx : Nat) (s : GameState) :
    (applyEvent (Event.startGame m idx) s).1.score = 0 ∧
    (applyEvent (Event.startGame m idx) s).1.lives = 10 ∧
    (applyEvent (Event.startGame m idx) s).1.bombsCleared = 0 ∧
    (applyEvent (Event.startGame m idx) s).1.bombs = [] ∧
    (applyEvent (Event.startGame m idx) s).1.gameOver = false ∧
    (applyEvent (Event.startGame m idx) s).1.step = Step.game ∧
    (applyEvent (Event.startGame m idx) s).1.mode = some m ∧
    (applyEvent (Event.startGame m idx) s).1.difficultyIndex = idx ∧
    (applyEvent Event.resetGame s).1.difficultyIndex = 0 :=
  ⟨rfl, rfl, rfl, rfl, rfl, rfl, rfl, rfl, rfl⟩

/-- Claim C8 counterexample: nothing is rejected at session start — with an
empty character catalog the spawner silently returns the field unchanged
(an ordinary value, not a failure), with no mode set a spawn tick in the
Playing phase is a silent no-op leaving the phase Playing, and `startGame`
unconditionally enters Playing. -/
theorem no_fail_fast_on_bad_config :
    (applyEvent (Event.startGame Mode.en 0) initState).1.step = Step.game ∧
    createBombChars [] [] 7 [⟨List.replicate 50 0, 0⟩] = ([], 7) ∧
    applyEvent (Event.spawn [⟨List.replicate 50 0, 0⟩])
        { initState with step := Step.game } =
      ({ initState with step := Step.game }, []) ∧
    ({ initState with step := Step.game }).mode = none := by
  refine ⟨rfl, by with_unfolding_all decide, rfl, rfl⟩

/-- Claim C8 (amended): there is no fail-fast path: `startGame` always
enters Playing, spawning with no mode set or an empty catalog silently
leaves the state unchanged (the engine would run an empty game), and the
bad configurations cannot actually arise because both shipped catalogs are
non-empty and the mode is confined to the two known values by construction. -/
theorem bad_config_silent :
    (∀ (m : Mode) (idx : Nat) (s : GameState),
        (applyEvent (Event.startGame m idx) s).1.step = Step.game) ∧
    (∀ (os : List BombOracle) (s : GameState), s.mode = none →
        applyEvent (Event.spawn os) s = (s, [])) ∧
    (∀ (prev : List Bomb) (nid : Nat) (os : List BombOracle),
        createBombChars [] prev nid os = (prev, nid)) ∧
    (∀ m : Mode, (CHAR_SETS m).length ≠ 0) := by
  refine ⟨fun _ _ _ => rfl, ?_, ?_, ?_⟩
  · intro os s hm
    simp only [applyEvent, hm]
  · intro prev nid os
    simp [createBombChars]
  · intro m
    cases m <;> decide

/-- Claim C8 witness: the silent-spawn branch applied at the initial state,
whose mode is unset. -/
theorem bad_config_silent_witness :
    applyEvent (Event.spawn [⟨List.replicate 50 0, 0⟩]) initState = (initState, []) :=
  bad_config_silent.2.1 [⟨List.replicate 50 0, 0⟩] initState rfl

/-- Claim C9: in Latin mode the required key is the glyph uppercased and
matching is case-insensitive in the pressed key (pressing `'a'` and `'A'`
are indistinguishable); in phonetic mode the required key comes from the
fixed lookup table, so a `'ㄅ'` bomb is cleared by `'1'` and not by `'ㄅ'`;
and every glyph of the phonetic catalog has exactly one entry in the table. -/
theorem key_mapping_spec :
    (∀ k c : Char, matchesKey Mode.en k c = (c.toUpper == k)) ∧
    (∀ s : GameState, applyEvent (Event.keydown 'a') s = applyEvent (Event.keydown 'A') s) ∧
    (matchesKey Mode.zh '1' 'ㄅ' = true ∧ matchesKey Mode.zh 'ㄅ' 'ㄅ' = false) ∧
    ((applyEvent (Event.keydown '1') zhState).1.bombs = [] ∧
      (applyEvent (Event.keydown 'ㄅ') zhState).1.bombs = zhState.bombs) ∧
    (((CHAR_SETS Mode.zh).all fun g =>
        (ZHUYIN_KEY_MAP.countP fun p => decide (p.1 = g)) == 1) = true) ∧
    (ZHUYIN_KEY_MAP.map Prod.fst).Nodup := by
  refine ⟨fun _ _ => rfl, fun s => rfl, by decide, by decide, by decide, by decide⟩

/-- Claim C10 evidence: a stored value that parses to a non-array JSON value
(such as the string `"5"`) is loaded as-is — not replaced by the empty
board — and submitting a score on it then fails with the modelled
`TypeError` of spreading a non-iterable; only a missing value or a value on
which parsing throws degrades to the empty board and lets submission
proceed. -/
theorem corrupt_board_crash :
    loadBoards (some (Except.ok JBoard.nonArray)) none =
      (JBoard.nonArray, JBoard.arr []) ∧
    submitScoreBoard JBoard.nonArray ⟨"Anonymous", 3, "1/1/2026"⟩ = Except.error () ∧
    loadBoards (some (Except.error ())) none = (JBoard.arr [], JBoard.arr []) ∧
    loadBoards none none = (JBoard.arr [], JBoard.arr []) ∧
    submitScoreBoard (JBoard.arr []) ⟨"Anonymous", 3, "1/1/2026"⟩ =
      Except.ok [⟨"Anonymous", 3, "1/1/2026"⟩] :=
  ⟨rfl, rfl, rfl, rfl, rfl⟩
